import Mathlib

/-!
Verification of the keyset-pagination engine of a video-hosting
application layer.  Every list endpoint of the source builds a filtered,
descending `(sortKey, id)`-ordered query, caps it at `limit + 1` rows,
trims to `limit` rows and derives the next cursor from the last retained
row.  The definitions below embed that pattern and the per-endpoint
instantiations (videos, trending, subscribed, watch history, liked
videos, playlist contents), the input validation performed by the `zod`
schemas, and the guarded mutations (`playlists.addVideo`,
`playlists.getVideos`).
-/

namespace KeysetPagination

/-- The descending keyset ordering used by every list endpoint:
`a` precedes (or equals) `b` when `a`'s primary sort key is larger, or the
keys tie and `a`'s id is at least `b`'s — i.e. `ORDER BY sortKey DESC, id DESC`. -/
def keyDescLE {α : Type} (sk idf : α → Nat) (a b : α) : Prop :=
  sk b < sk a ∨ (sk b = sk a ∧ idf b ≤ idf a)

/-- The strict version of `keyDescLE`: `a` comes strictly before `b`. -/
def keyDescLT {α : Type} (sk idf : α → Nat) (a b : α) : Prop :=
  sk b < sk a ∨ (sk b = sk a ∧ idf b < idf a)

instance {α : Type} (sk idf : α → Nat) : DecidableRel (keyDescLE sk idf) := fun a b => by
  unfold keyDescLE; exact inferInstance

instance {α : Type} (sk idf : α → Nat) : DecidableRel (keyDescLT sk idf) := fun a b => by
  unfold keyDescLT; exact inferInstance

instance {α : Type} (sk idf : α → Nat) : IsTotal α (keyDescLE sk idf) where
  total a b := by unfold keyDescLE; omega

instance {α : Type} (sk idf : α → Nat) : IsTrans α (keyDescLE sk idf) where
  trans a b c hab hbc := by unfold keyDescLE at *; omega

theorem keyDescLT_asymm {α : Type} (sk idf : α → Nat) (a b : α) :
    keyDescLT sk idf a b → ¬ keyDescLT sk idf b a := by
  unfold keyDescLT; omega

theorem keyDescLT_trans {α : Type} (sk idf : α → Nat) (a b c : α) :
    keyDescLT sk idf a b → keyDescLT sk idf b c → keyDescLT sk idf a c := by
  unfold keyDescLT; omega

/-- The cursor predicate appended to the `WHERE` clause when a cursor is
supplied: `sortKey < cursor.sortKey OR (sortKey = cursor.sortKey AND id <
cursor.id)`, as every endpoint writes it with `lt`/`eq`/`and`/`or`. -/
def keyCursorPred {α : Type} (sk idf : α → Nat) (csk cid : Nat) (r : α) : Bool :=
  decide (sk r < csk) || (decide (sk r = csk) && decide (idf r < cid))

/-- The `{ items, nextCursor }` object every list endpoint returns. -/
structure PageResult (α κ : Type) where
  items : List α
  nextCursor : Option κ
deriving Repr, DecidableEq

/-- The single read each endpoint issues: `WHERE w` rows, ordered by `le`,
with a row cap of `limit + 1` (the source's `.limit(limit + 1)`). -/
def pageData {α : Type} (le : α → α → Prop) [DecidableRel le] (w : α → Bool)
    (rows : List α) (limit : Nat) : List α :=
  (List.insertionSort le (rows.filter w)).take (limit + 1)

/-- The shared fetch-trim-derive driver: read `limit + 1` rows, set
`hasMore` when more than `limit` came back, drop the extra row, and set
`nextCursor` from the last retained row (the source's `hasMore`,
`data.slice(0, -1)`, `lastItem` steps). -/
def buildPage {α κ : Type} (le : α → α → Prop) [DecidableRel le] (w : α → Bool)
    (rows : List α) (limit : Nat) (mkCursor : α → κ) : PageResult α κ :=
  let data := pageData le w rows limit
  let hasMore := decide (limit < data.length)
  let items := if hasMore then data.dropLast else data
  { items := items
    nextCursor := if hasMore then items.getLast?.map mkCursor else none }

/-! ## The abstract record model

A record carries a unique identifier and a primary sort value; all other
columns are irrelevant to pagination (spec §3). -/

/-- A record of a paginated collection: its id and its primary sort key. -/
structure Record where
  id : Nat
  sortKey : Nat
deriving DecidableEq, Repr

/-- A cursor: the `(id, sortKey)` of the last record of a returned page. -/
structure Cursor where
  id : Nat
  sortKey : Nat
deriving DecidableEq, Repr

/-- Non-strict descending `(sortKey, id)` order on records. -/
abbrev recLE : Record → Record → Prop := keyDescLE Record.sortKey Record.id

/-- Strict descending `(sortKey, id)` order on records. -/
abbrev recLT : Record → Record → Prop := keyDescLT Record.sortKey Record.id

instance : IsAntisymm Record recLE where
  antisymm a b hab hba := by
    cases a; cases b
    simp only [keyDescLE] at hab hba
    simp only [Record.mk.injEq]
    omega

/-- The cursor predicate of the abstract engine. -/
def cursorPred (c : Cursor) (r : Record) : Bool :=
  keyCursorPred Record.sortKey Record.id c.sortKey c.id r

/-- A row matches when it passes the caller's filter and, when a cursor is
supplied, the cursor predicate (the `and(filter, cursor ? or(...) :
undefined)` of the source). -/
def matchRow (flt : Record → Bool) (cursor : Option Cursor) (r : Record) : Bool :=
  flt r && (match cursor with
    | some c => cursorPred c r
    | none => true)

/-- The rows the single capped read returns. -/
def queryRows (coll : List Record) (flt : Record → Bool) (cursor : Option Cursor)
    (limit : Nat) : List Record :=
  pageData recLE (matchRow flt cursor) coll limit

/-- One page fetch of the abstract engine (spec §4.1 `fetchPage`). -/
def fetchPage (coll : List Record) (flt : Record → Bool) (cursor : Option Cursor)
    (limit : Nat) : PageResult Record Cursor :=
  buildPage recLE (matchRow flt cursor) coll limit (fun r => ⟨r.id, r.sortKey⟩)

/-- All records matching the filter, in descending `(sortKey, id)` order:
what a complete enumeration must produce. -/
def sortedFiltered (coll : List Record) (flt : Record → Bool) : List Record :=
  List.insertionSort recLE (coll.filter flt)

/-- Chained fetching: call `fetchPage`, then continue from the returned
cursor until it is null (fuelled to stay structurally recursive). -/
def fetchAll (coll : List Record) (flt : Record → Bool) (limit : Nat) :
    Nat → Option Cursor → List Record
  | 0, _ => []
  | fuel + 1, cursor =>
    let p := fetchPage coll flt cursor limit
    p.items ++ (match p.nextCursor with
      | none => []
      | some c => fetchAll coll flt limit fuel (some c))

/-- Whether the chained fetching starting at `cursor` reaches, within
`fuel` calls, a call whose `nextCursor` is null. -/
def chainEnds (coll : List Record) (flt : Record → Bool) (limit : Nat) :
    Nat → Option Cursor → Bool
  | 0, _ => false
  | fuel + 1, cursor =>
    match (fetchPage coll flt cursor limit).nextCursor with
    | none => true
    | some c => chainEnds coll flt limit fuel (some c)

/-! ## Facts about the cursor predicate and the sorted filtered list -/

theorem cursorPred_iff (c : Cursor) (r : Record) :
    cursorPred c r = true ↔ recLT ⟨c.id, c.sortKey⟩ r := by
  simp [cursorPred, keyCursorPred, keyDescLT]

theorem cursorPred_of_record (r x : Record) :
    cursorPred ⟨r.id, r.sortKey⟩ x = true ↔ recLT r x := by
  simp [cursorPred, keyCursorPred, keyDescLT]

theorem cursorPred_record_self (r : Record) : cursorPred ⟨r.id, r.sortKey⟩ r = false := by
  simp [cursorPred, keyCursorPred]

theorem sorted_sortedFiltered (coll : List Record) (flt : Record → Bool) :
    List.Sorted recLE (sortedFiltered coll flt) :=
  List.sorted_insertionSort recLE _

theorem perm_sortedFiltered (coll : List Record) (flt : Record → Bool) :
    List.Perm (sortedFiltered coll flt) (coll.filter flt) :=
  List.perm_insertionSort recLE _

theorem pairwise_recLT_of_sorted_nodup {l : List Record} (hs : List.Sorted recLE l)
    (hn : l.Nodup) : List.Pairwise recLT l := by
  induction l with
  | nil => exact List.Pairwise.nil
  | cons a t ih =>
    rw [List.sorted_cons] at hs
    rw [List.nodup_cons] at hn
    refine List.Pairwise.cons ?_ (ih hs.2 hn.2)
    intro x hx
    have h1 := hs.1 x hx
    have h2 : a ≠ x := fun he => hn.1 (he ▸ hx)
    cases a with
    | mk aid ask =>
      cases x with
      | mk xid xsk =>
        simp only [keyDescLE] at h1
        simp only [keyDescLT]
        simp only [ne_eq, Record.mk.injEq, not_and] at h2
        omega

theorem nodup_sortedFiltered (coll : List Record) (flt : Record → Bool)
    (hid : (coll.map Record.id).Nodup) : (sortedFiltered coll flt).Nodup := by
  have h1 : coll.Nodup := List.Nodup.of_map _ hid
  have h2 : (coll.filter flt).Nodup := List.Nodup.sublist (List.filter_sublist coll) h1
  exact (perm_sortedFiltered coll flt).symm.nodup h2

theorem pairwise_recLT_sortedFiltered (coll : List Record) (flt : Record → Bool)
    (hid : (coll.map Record.id).Nodup) : List.Pairwise recLT (sortedFiltered coll flt) :=
  pairwise_recLT_of_sorted_nodup (sorted_sortedFiltered coll flt)
    (nodup_sortedFiltered coll flt hid)

theorem filter_matchRow_none (coll : List Record) (flt : Record → Bool) :
    coll.filter (matchRow flt none) = coll.filter flt :=
  List.filter_congr (fun r _ => by simp [matchRow])

theorem sortRows_none (coll : List Record) (flt : Record → Bool) :
    List.insertionSort recLE (coll.filter (matchRow flt none)) = sortedFiltered coll flt := by
  rw [filter_matchRow_none]; rfl

theorem filter_matchRow_cursor (coll : List Record) (flt : Record → Bool) (c : Cursor) :
    coll.filter (matchRow flt (some c)) = (coll.filter flt).filter (cursorPred c) := by
  rw [List.filter_filter]
  exact List.filter_congr (fun r _ => by simp [matchRow, Bool.and_comm])

theorem sortRows_cursor (coll : List Record) (flt : Record → Bool) (c : Cursor) :
    List.insertionSort recLE (coll.filter (matchRow flt (some c)))
      = (sortedFiltered coll flt).filter (cursorPred c) := by
  have p1 : List.Perm (coll.filter (matchRow flt (some c)))
      ((sortedFiltered coll flt).filter (cursorPred c)) := by
    rw [filter_matchRow_cursor coll flt c]
    exact (perm_sortedFiltered coll flt).symm.filter _
  have h1 : List.Perm (List.insertionSort recLE (coll.filter (matchRow flt (some c))))
      ((sortedFiltered coll flt).filter (cursorPred c)) :=
    (List.perm_insertionSort recLE _).trans p1
  exact @List.eq_of_perm_of_sorted Record recLE _ _ _ h1
    (List.sorted_insertionSort _ _) ((sorted_sortedFiltered coll flt).filter _)

/-- In a strictly descending list, the rows passing the cursor predicate of
the record at index `i` are exactly the rows after index `i`. -/
theorem filter_cursorPred_get (S : List Record) (hpw : List.Pairwise recLT S) :
    ∀ (i : Nat) (hi : i < S.length),
      S.filter (cursorPred ⟨(S.get ⟨i, hi⟩).id, (S.get ⟨i, hi⟩).sortKey⟩) = S.drop (i + 1) := by
  induction S with
  | nil => intro i hi; simp at hi
  | cons a t ih =>
    rw [List.pairwise_cons] at hpw
    intro i hi
    match i with
    | 0 =>
      show (a :: t).filter (cursorPred ⟨a.id, a.sortKey⟩) = t.drop 0
      rw [List.drop_zero,
        List.filter_cons_of_neg (by rw [cursorPred_record_self a]; exact Bool.false_ne_true)]
      rw [List.filter_eq_self]
      intro x hx
      exact (cursorPred_of_record a x).mpr (hpw.1 x hx)
    | j + 1 =>
      have hj : j < t.length := by simpa using hi
      show (a :: t).filter (cursorPred ⟨(t.get ⟨j, hj⟩).id, (t.get ⟨j, hj⟩).sortKey⟩)
          = t.drop (j + 1)
      have hmem : t.get ⟨j, hj⟩ ∈ t := List.get_mem t j hj
      have har : recLT a (t.get ⟨j, hj⟩) := hpw.1 _ hmem
      have hfa : ¬ cursorPred ⟨(t.get ⟨j, hj⟩).id, (t.get ⟨j, hj⟩).sortKey⟩ a = true := by
        intro h
        exact keyDescLT_asymm _ _ _ _ har ((cursorPred_of_record _ a).mp h)
      rw [List.filter_cons_of_neg hfa]
      exact ih hpw.2 j hj

/-- For an arbitrary cursor, the rows of a strictly descending list passing
the cursor predicate are a suffix of the list (a mismatched cursor degrades
gracefully to a slice, spec §9). -/
theorem filter_cursorPred_suffix (c : Cursor) :
    ∀ (S : List Record), List.Pairwise recLT S →
      ∃ j, S.filter (cursorPred c) = S.drop j := by
  intro S
  induction S with
  | nil => intro _; exact ⟨0, rfl⟩
  | cons a t ih =>
    intro hpw
    rw [List.pairwise_cons] at hpw
    cases h : cursorPred c a with
    | true =>
      refine ⟨0, ?_⟩
      rw [List.drop_zero, List.filter_cons_of_pos h]
      congr 1
      rw [List.filter_eq_self]
      intro x hx
      exact (cursorPred_iff c x).mpr
        (keyDescLT_trans _ _ _ a x ((cursorPred_iff c a).mp h) (hpw.1 x hx))
    | false =>
      obtain ⟨j, hj⟩ := ih hpw.2
      exact ⟨j + 1, by
        rw [List.filter_cons_of_neg (by rw [h]; exact Bool.false_ne_true), hj,
          List.drop_succ_cons]⟩

/-! ## How `buildPage` trims the capped read -/

theorem pageData_length_le {α : Type} (le : α → α → Prop) [DecidableRel le] (w : α → Bool)
    (rows : List α) (limit : Nat) : (pageData le w rows limit).length ≤ limit + 1 := by
  simp only [pageData, List.length_take]
  omega

theorem buildPage_eq_of_le {α κ : Type} (le : α → α → Prop) [DecidableRel le] (w : α → Bool)
    (rows : List α) (limit : Nat) (mk : α → κ)
    (h : (pageData le w rows limit).length ≤ limit) :
    buildPage le w rows limit mk = ⟨pageData le w rows limit, none⟩ := by
  unfold buildPage
  simp [Nat.not_lt.mpr h]

theorem buildPage_eq_of_gt {α κ : Type} (le : α → α → Prop) [DecidableRel le] (w : α → Bool)
    (rows : List α) (limit : Nat) (mk : α → κ)
    (h : limit < (pageData le w rows limit).length) :
    buildPage le w rows limit mk
      = ⟨(pageData le w rows limit).dropLast,
          ((pageData le w rows limit).dropLast).getLast?.map mk⟩ := by
  unfold buildPage
  simp [h]

theorem dropLast_take_succ {α : Type} (T : List α) (L : Nat) (h : L < T.length) :
    (T.take (L + 1)).dropLast = T.take L := by
  rw [List.dropLast_eq_take, List.take_take]
  congr 1
  rw [List.length_take]
  omega

/-! ## The chained enumeration -/

/-- Invariant of the page chain: when the capped read's sorted row set is the
suffix of the full sorted filtered list starting at `j`, the chain from here
returns exactly that suffix and ends with a null cursor. -/
theorem fetchAll_suffix (coll : List Record) (flt : Record → Bool) (L : Nat) (hL : 1 ≤ L)
    (S : List Record) (hS : sortedFiltered coll flt = S) (hpw : List.Pairwise recLT S) :
    ∀ (fuel j : Nat) (cur : Option Cursor),
      List.insertionSort recLE (coll.filter (matchRow flt cur)) = S.drop j →
      S.length - j < fuel →
      fetchAll coll flt L fuel cur = S.drop j ∧ chainEnds coll flt L fuel cur = true := by
  obtain ⟨l, rfl⟩ : ∃ l, L = l + 1 := ⟨L - 1, by omega⟩
  intro fuel
  induction fuel with
  | zero => intro j cur _ hf; omega
  | succ fuel ih =>
    intro j cur hrows hf
    have hdlen : (S.drop j).length = S.length - j := List.length_drop j S
    have hq : pageData recLE (matchRow flt cur) coll (l + 1) = (S.drop j).take (l + 2) := by
      simp only [pageData, hrows]
    by_cases hlen : (S.drop j).length ≤ l + 1
    · -- final page: all remaining rows fit, nextCursor is null
      have hq2 : pageData recLE (matchRow flt cur) coll (l + 1) = S.drop j := by
        rw [hq]
        exact List.take_of_length_le (by omega)
      have hp : fetchPage coll flt cur (l + 1) = ⟨S.drop j, none⟩ := by
        unfold fetchPage
        rw [buildPage_eq_of_le _ _ _ _ _ (by rw [hq2]; omega), hq2]
      refine ⟨?_, ?_⟩
      · simp only [fetchAll, hp]
        simp
      · simp only [chainEnds, hp]
    · -- full page: trim the extra row, continue from the last retained row
      push_neg at hlen
      have hqlen : (pageData recLE (matchRow flt cur) coll (l + 1)).length = l + 2 := by
        rw [hq, List.length_take]
        omega
      have hitems : (pageData recLE (matchRow flt cur) coll (l + 1)).dropLast
          = (S.drop j).take (l + 1) := by
        rw [hq]
        exact dropLast_take_succ _ _ (by omega)
      have hidx : j + l < S.length := by omega
      have hget : ((S.drop j).take (l + 1)).getLast? = some (S.get ⟨j + l, hidx⟩) := by
        have hlen2 : ((S.drop j).take (l + 1)).length = l + 1 := by
          rw [List.length_take]
          omega
        have hl2 : l < ((S.drop j).take (l + 1)).length := by omega
        rw [List.getLast?_eq_getElem?, hlen2]
        simp only [Nat.add_sub_cancel]
        rw [List.getElem?_eq_getElem hl2]
        refine congrArg some ?_
        rw [List.getElem_take, List.getElem_drop, List.get_eq_getElem]
      have hp : fetchPage coll flt cur (l + 1)
          = ⟨(S.drop j).take (l + 1),
              some ⟨(S.get ⟨j + l, hidx⟩).id, (S.get ⟨j + l, hidx⟩).sortKey⟩⟩ := by
        unfold fetchPage
        rw [buildPage_eq_of_gt _ _ _ _ _ (by omega), hitems, hget]
        rfl
      have hrows2 : List.insertionSort recLE (coll.filter (matchRow flt
          (some ⟨(S.get ⟨j + l, hidx⟩).id, (S.get ⟨j + l, hidx⟩).sortKey⟩)))
          = S.drop (j + l + 1) := by
        rw [sortRows_cursor, hS]
        exact filter_cursorPred_get S hpw (j + l) hidx
      obtain ⟨ih1, ih2⟩ := ih (j + l + 1)
        (some ⟨(S.get ⟨j + l, hidx⟩).id, (S.get ⟨j + l, hidx⟩).sortKey⟩) hrows2 (by omega)
      refine ⟨?_, ?_⟩
      · simp only [fetchAll, hp]
        rw [ih1]
        have hdd : S.drop (j + l + 1) = (S.drop j).drop (l + 1) := by
          rw [List.drop_drop]
          congr 1
        rw [hdd, List.take_append_drop]
      · simp only [chainEnds, hp]
        exact ih2

theorem nodup_of_pairwise_recLT {l : List Record} (h : List.Pairwise recLT l) : l.Nodup :=
  h.imp fun {a b} hab => by
    intro he
    subst he
    have hab2 : a.sortKey < a.sortKey ∨ (a.sortKey = a.sortKey ∧ a.id < a.id) := hab
    omega

/-- The sorted row set of any page read (null cursor or not) is a suffix of
the full sorted filtered list. -/
theorem sortRows_eq_drop (coll : List Record) (flt : Record → Bool)
    (hid : (coll.map Record.id).Nodup) (cur : Option Cursor) :
    ∃ j, List.insertionSort recLE (coll.filter (matchRow flt cur))
        = (sortedFiltered coll flt).drop j := by
  cases cur with
  | none => exact ⟨0, by rw [sortRows_none, List.drop_zero]⟩
  | some c =>
    obtain ⟨j, hj⟩ := filter_cursorPred_suffix c (sortedFiltered coll flt)
      (pairwise_recLT_sortedFiltered coll flt hid)
    exact ⟨j, by rw [sortRows_cursor, hj]⟩

/-- A page's items are a sublist of the sorted row set of its read. -/
theorem fetchPage_items_sublist (coll : List Record) (flt : Record → Bool)
    (cur : Option Cursor) (L : Nat) (T : List Record)
    (hrows : List.insertionSort recLE (coll.filter (matchRow flt cur)) = T) :
    (fetchPage coll flt cur L).items.Sublist T := by
  have hq : pageData recLE (matchRow flt cur) coll L = T.take (L + 1) := by
    simp only [pageData, hrows]
  have hdata : (pageData recLE (matchRow flt cur) coll L).Sublist T := by
    rw [hq]
    exact List.take_sublist _ _
  by_cases h : L < (pageData recLE (matchRow flt cur) coll L).length
  · have hfp : fetchPage coll flt cur L
        = ⟨(pageData recLE (matchRow flt cur) coll L).dropLast,
            ((pageData recLE (matchRow flt cur) coll L).dropLast).getLast?.map
              (fun r => ⟨r.id, r.sortKey⟩)⟩ :=
      buildPage_eq_of_gt recLE (matchRow flt cur) coll L _ h
    rw [hfp]
    exact (List.dropLast_sublist _).trans hdata
  · push_neg at h
    have hfp : fetchPage coll flt cur L = ⟨pageData recLE (matchRow flt cur) coll L, none⟩ :=
      buildPage_eq_of_le recLE (matchRow flt cur) coll L _ h
    rw [hfp]
    exact hdata

theorem getLast?_take_succ {α : Type} (T : List α) (l : Nat) (h : l < T.length) :
    (T.take (l + 1)).getLast? = some (T.get ⟨l, h⟩) := by
  have hlen2 : (T.take (l + 1)).length = l + 1 := by
    rw [List.length_take]
    omega
  have hl2 : l < (T.take (l + 1)).length := by omega
  rw [List.getLast?_eq_getElem?, hlen2]
  simp only [Nat.add_sub_cancel]
  rw [List.getElem?_eq_getElem hl2]
  refine congrArg some ?_
  rw [List.getElem_take, List.get_eq_getElem]

/-- When more rows match than fit the page, the page keeps the first
`l + 1` rows and the next cursor is the key of the last retained row. -/
theorem fetchPage_full_page (coll : List Record) (flt : Record → Bool) (cur : Option Cursor)
    (l : Nat) (T : List Record) (hl : l < T.length)
    (hrows : List.insertionSort recLE (coll.filter (matchRow flt cur)) = T)
    (hlen : l + 1 < T.length) :
    (fetchPage coll flt cur (l + 1)).items = T.take (l + 1)
    ∧ (fetchPage coll flt cur (l + 1)).nextCursor
        = some ⟨(T.get ⟨l, hl⟩).id, (T.get ⟨l, hl⟩).sortKey⟩ := by
  have hq : pageData recLE (matchRow flt cur) coll (l + 1) = T.take (l + 2) := by
    simp only [pageData, hrows]
  have hqlen : (pageData recLE (matchRow flt cur) coll (l + 1)).length = l + 2 := by
    rw [hq, List.length_take]
    omega
  have hitems : (pageData recLE (matchRow flt cur) coll (l + 1)).dropLast = T.take (l + 1) := by
    rw [hq]
    exact dropLast_take_succ _ _ (by omega)
  have hfp : fetchPage coll flt cur (l + 1)
      = ⟨(pageData recLE (matchRow flt cur) coll (l + 1)).dropLast,
          ((pageData recLE (matchRow flt cur) coll (l + 1)).dropLast).getLast?.map
            (fun r => ⟨r.id, r.sortKey⟩)⟩ :=
    buildPage_eq_of_gt recLE (matchRow flt cur) coll (l + 1) _ (by omega)
  rw [hfp, hitems]
  exact ⟨rfl, by rw [getLast?_take_succ T l hl]; rfl⟩

/-- When all remaining matching rows fit the page, the page keeps them all
and the next cursor is null. -/
theorem fetchPage_last_page (coll : List Record) (flt : Record → Bool) (cur : Option Cursor)
    (L : Nat) (T : List Record)
    (hrows : List.insertionSort recLE (coll.filter (matchRow flt cur)) = T)
    (hlen : T.length ≤ L) :
    fetchPage coll flt cur L = ⟨T, none⟩ := by
  have hq : pageData recLE (matchRow flt cur) coll L = T := by
    simp only [pageData, hrows]
    exact List.take_of_length_le (by omega)
  have hfp : fetchPage coll flt cur L = ⟨pageData recLE (matchRow flt cur) coll L, none⟩ :=
    buildPage_eq_of_le recLE (matchRow flt cur) coll L _ (by rw [hq]; exact hlen)
  rw [hfp, hq]

/-- The length of the sorted filtered list is at most the collection's. -/
theorem sortedFiltered_length_le (coll : List Record) (flt : Record → Bool) :
    (sortedFiltered coll flt).length ≤ coll.length := by
  rw [sortedFiltered, List.length_insertionSort]
  exact List.length_filter_le flt coll

/-! ## Claim theorems -/

/-- C1: for every static collection with unique record ids, every filter and
every limit in `[1, 100]`, starting from a null cursor and repeatedly calling
the list operation with the `nextCursor` of the previous call enumerates
exactly the records matching the filter — none skipped, none duplicated — in
strictly descending `(sortKey, id)` order, and the chain reaches a call whose
`nextCursor` is null. -/
theorem fetchPage_chain_complete_enumeration (coll : List Record) (flt : Record → Bool)
    (L : Nat) (hL1 : 1 ≤ L) (hL2 : L ≤ 100) (hid : (coll.map Record.id).Nodup) :
    fetchAll coll flt L (coll.length + 1) none = sortedFiltered coll flt
    ∧ List.Perm (fetchAll coll flt L (coll.length + 1) none) (coll.filter flt)
    ∧ List.Pairwise recLT (fetchAll coll flt L (coll.length + 1) none)
    ∧ chainEnds coll flt L (coll.length + 1) none = true := by
  have hpw := pairwise_recLT_sortedFiltered coll flt hid
  obtain ⟨h1, h2⟩ := fetchAll_suffix coll flt L hL1 (sortedFiltered coll flt) rfl hpw
    (coll.length + 1) 0 none (by rw [sortRows_none, List.drop_zero])
    (by have := sortedFiltered_length_le coll flt; omega)
  rw [List.drop_zero] at h1
  exact ⟨h1, h1 ▸ perm_sortedFiltered coll flt, h1 ▸ hpw, h2⟩

/-- C1 witness: the enumeration property evaluated on a concrete three-record
collection with a sort-key tie, filter `5 ≤ sortKey`, limit 1. -/
theorem fetchPage_chain_complete_enumeration_witness :
    fetchAll [⟨1, 5⟩, ⟨2, 5⟩, ⟨3, 7⟩] (fun r => decide (5 ≤ r.sortKey)) 1 4 none
        = sortedFiltered [⟨1, 5⟩, ⟨2, 5⟩, ⟨3, 7⟩] (fun r => decide (5 ≤ r.sortKey))
    ∧ List.Perm (fetchAll [⟨1, 5⟩, ⟨2, 5⟩, ⟨3, 7⟩] (fun r => decide (5 ≤ r.sortKey)) 1 4 none)
        (List.filter (fun r => decide (5 ≤ r.sortKey)) [⟨1, 5⟩, ⟨2, 5⟩, ⟨3, 7⟩])
    ∧ List.Pairwise recLT
        (fetchAll [⟨1, 5⟩, ⟨2, 5⟩, ⟨3, 7⟩] (fun r => decide (5 ≤ r.sortKey)) 1 4 none)
    ∧ chainEnds [⟨1, 5⟩, ⟨2, 5⟩, ⟨3, 7⟩] (fun r => decide (5 ≤ r.sortKey)) 1 4 none = true :=
  fetchPage_chain_complete_enumeration [⟨1, 5⟩, ⟨2, 5⟩, ⟨3, 7⟩]
    (fun r => decide (5 ≤ r.sortKey)) 1 (by decide) (by decide) (by decide)

/-- C4: the single read is capped at `limit + 1` rows; when it returns more
than `limit` rows the page keeps exactly the first `limit` rows and the next
cursor is the `(id, sortKey)` of the last retained row, otherwise it keeps
all rows and the next cursor is null; hence `items.length ≤ limit` always,
with equality whenever the next cursor is non-null. -/
theorem fetchPage_trim_and_cursor (coll : List Record) (flt : Record → Bool)
    (cur : Option Cursor) (L : Nat) (hL : 1 ≤ L) :
    (queryRows coll flt cur L).length ≤ L + 1
    ∧ (L < (queryRows coll flt cur L).length →
        (fetchPage coll flt cur L).items = (queryRows coll flt cur L).take L
        ∧ (fetchPage coll flt cur L).nextCursor
            = ((fetchPage coll flt cur L).items.getLast?.map (fun r => ⟨r.id, r.sortKey⟩)))
    ∧ ((queryRows coll flt cur L).length ≤ L →
        (fetchPage coll flt cur L).items = queryRows coll flt cur L
        ∧ (fetchPage coll flt cur L).nextCursor = none)
    ∧ (fetchPage coll flt cur L).items.length ≤ L
    ∧ ((fetchPage coll flt cur L).nextCursor ≠ none →
        (fetchPage coll flt cur L).items.length = L) := by
  have hcap : (queryRows coll flt cur L).length ≤ L + 1 :=
    pageData_length_le recLE (matchRow flt cur) coll L
  by_cases h : L < (queryRows coll flt cur L).length
  · have hlen : (queryRows coll flt cur L).length = L + 1 := by omega
    have hfp : fetchPage coll flt cur L
        = ⟨(queryRows coll flt cur L).dropLast,
            ((queryRows coll flt cur L).dropLast).getLast?.map (fun r => ⟨r.id, r.sortKey⟩)⟩ :=
      buildPage_eq_of_gt recLE (matchRow flt cur) coll L _ h
    have hdl : (queryRows coll flt cur L).dropLast = (queryRows coll flt cur L).take L := by
      rw [List.dropLast_eq_take, hlen]
      simp
    have hlen2 : ((queryRows coll flt cur L).take L).length = L := by
      rw [List.length_take]
      omega
    have hil : (fetchPage coll flt cur L).items.length = L := by
      rw [hfp]
      show ((queryRows coll flt cur L).dropLast).length = L
      rw [hdl]
      exact hlen2
    exact ⟨hcap, fun _ => ⟨by rw [hfp, hdl], by rw [hfp]⟩, fun hc => absurd hc (by omega),
      le_of_eq hil, fun _ => hil⟩
  · push_neg at h
    have hfp : fetchPage coll flt cur L = ⟨queryRows coll flt cur L, none⟩ :=
      buildPage_eq_of_le recLE (matchRow flt cur) coll L _ h
    refine ⟨hcap, fun hc => absurd hc (by omega), fun _ => ⟨by rw [hfp], by rw [hfp]⟩, ?_, ?_⟩
    · rw [hfp]
      exact h
    · intro hc
      rw [hfp] at hc
      simp at hc

/-- C4 witness: the trim behaviour at limit 1 on a two-record collection. -/
theorem fetchPage_trim_and_cursor_witness :
    (queryRows [⟨1, 1⟩, ⟨2, 2⟩] (fun _ => true) none 1).length ≤ 2
    ∧ (1 < (queryRows [⟨1, 1⟩, ⟨2, 2⟩] (fun _ => true) none 1).length →
        (fetchPage [⟨1, 1⟩, ⟨2, 2⟩] (fun _ => true) none 1).items
            = (queryRows [⟨1, 1⟩, ⟨2, 2⟩] (fun _ => true) none 1).take 1
        ∧ (fetchPage [⟨1, 1⟩, ⟨2, 2⟩] (fun _ => true) none 1).nextCursor
            = ((fetchPage [⟨1, 1⟩, ⟨2, 2⟩] (fun _ => true) none 1).items.getLast?.map
                (fun r => ⟨r.id, r.sortKey⟩)))
    ∧ ((queryRows [⟨1, 1⟩, ⟨2, 2⟩] (fun _ => true) none 1).length ≤ 1 →
        (fetchPage [⟨1, 1⟩, ⟨2, 2⟩] (fun _ => true) none 1).items
            = queryRows [⟨1, 1⟩, ⟨2, 2⟩] (fun _ => true) none 1
        ∧ (fetchPage [⟨1, 1⟩, ⟨2, 2⟩] (fun _ => true) none 1).nextCursor = none)
    ∧ (fetchPage [⟨1, 1⟩, ⟨2, 2⟩] (fun _ => true) none 1).items.length ≤ 1
    ∧ ((fetchPage [⟨1, 1⟩, ⟨2, 2⟩] (fun _ => true) none 1).nextCursor ≠ none →
        (fetchPage [⟨1, 1⟩, ⟨2, 2⟩] (fun _ => true) none 1).items.length = 1) :=
  fetchPage_trim_and_cursor [⟨1, 1⟩, ⟨2, 2⟩] (fun _ => true) none 1 (by decide)

/-- C3: the cursor predicate is exactly `sortKey < cursor.sortKey OR
(sortKey = cursor.sortKey AND id < cursor.id)` with strict inequalities, so
the boundary record itself never satisfies it; every page is strictly
descending in `(sortKey, id)` (tied records appear in descending id order);
and no item of the page fetched from a returned cursor re-appears among the
items of the page that produced the cursor. -/
theorem cursorPredicate_strict_no_boundary_repeat (coll : List Record) (flt : Record → Bool)
    (L : Nat) (cur : Option Cursor) (c' c : Cursor) (r : Record)
    (hL : 1 ≤ L) (hid : (coll.map Record.id).Nodup)
    (hnext : (fetchPage coll flt cur L).nextCursor = some c') :
    (cursorPred c r = true ↔ (r.sortKey < c.sortKey ∨ (r.sortKey = c.sortKey ∧ r.id < c.id)))
    ∧ cursorPred c ⟨c.id, c.sortKey⟩ = false
    ∧ List.Pairwise recLT (fetchPage coll flt cur L).items
    ∧ (∀ x ∈ (fetchPage coll flt (some c') L).items,
        x ∉ (fetchPage coll flt cur L).items) := by
  have hpw := pairwise_recLT_sortedFiltered coll flt hid
  obtain ⟨j, hj⟩ := sortRows_eq_drop coll flt hid cur
  refine ⟨by simp [cursorPred, keyCursorPred], by simp [cursorPred, keyCursorPred], ?_, ?_⟩
  · exact List.Pairwise.sublist
      ((fetchPage_items_sublist coll flt cur L _ hj).trans (List.drop_sublist _ _)) hpw
  · obtain ⟨l, rfl⟩ : ∃ l, L = l + 1 := ⟨L - 1, by omega⟩
    have hlen : l + 1 < ((sortedFiltered coll flt).drop j).length := by
      by_contra hcon
      push_neg at hcon
      have hfp := fetchPage_last_page coll flt cur (l + 1) _ hj hcon
      rw [hfp] at hnext
      simp at hnext
    have hl : l < ((sortedFiltered coll flt).drop j).length := by omega
    obtain ⟨hitems, hcur⟩ := fetchPage_full_page coll flt cur l _ hl hj hlen
    rw [hcur] at hnext
    have hc' : c' = ⟨(((sortedFiltered coll flt).drop j).get ⟨l, hl⟩).id,
        (((sortedFiltered coll flt).drop j).get ⟨l, hl⟩).sortKey⟩ :=
      (Option.some.inj hnext).symm
    subst hc'
    have hidx : j + l < (sortedFiltered coll flt).length := by
      have hdl : ((sortedFiltered coll flt).drop j).length
          = (sortedFiltered coll flt).length - j := List.length_drop _ _
      omega
    have hgetTS : ((sortedFiltered coll flt).drop j).get ⟨l, hl⟩
        = (sortedFiltered coll flt).get ⟨j + l, hidx⟩ := by
      rw [List.get_eq_getElem, List.get_eq_getElem, List.getElem_drop]
    have hrows2 : List.insertionSort recLE (coll.filter (matchRow flt
        (some ⟨(((sortedFiltered coll flt).drop j).get ⟨l, hl⟩).id,
          (((sortedFiltered coll flt).drop j).get ⟨l, hl⟩).sortKey⟩)))
        = (sortedFiltered coll flt).drop (j + l + 1) := by
      rw [sortRows_cursor, hgetTS]
      exact filter_cursorPred_get _ hpw (j + l) hidx
    have hsub2 := fetchPage_items_sublist coll flt
      (some ⟨(((sortedFiltered coll flt).drop j).get ⟨l, hl⟩).id,
        (((sortedFiltered coll flt).drop j).get ⟨l, hl⟩).sortKey⟩) (l + 1) _ hrows2
    intro x hx hxK
    have hx1 : x ∈ (sortedFiltered coll flt).drop (j + l + 1) := hsub2.subset hx
    have hx2 : x ∈ ((sortedFiltered coll flt).drop j).take (l + 1) := by
      rw [hitems] at hxK
      exact hxK
    have hdd : (sortedFiltered coll flt).drop (j + l + 1)
        = ((sortedFiltered coll flt).drop j).drop (l + 1) := by
      rw [List.drop_drop]
      congr 1
    have hnd : ((sortedFiltered coll flt).drop j).Nodup :=
      List.Nodup.sublist (List.drop_sublist _ _) (nodup_of_pairwise_recLT hpw)
    have hnd2 : (((sortedFiltered coll flt).drop j).take (l + 1)
        ++ ((sortedFiltered coll flt).drop j).drop (l + 1)).Nodup := by
      rw [List.take_append_drop]
      exact hnd
    rw [List.nodup_append] at hnd2
    exact hnd2.2.2 hx2 (hdd ▸ hx1)

/-- C3 witness: two records tied on `sortKey = 5` with ids `2 > 1`; at limit
1 the first page yields the id-2 record and its cursor, and the page fetched
from that cursor contains neither that record again nor anything of page 1. -/
theorem cursorPredicate_strict_no_boundary_repeat_witness :
    (cursorPred ⟨2, 5⟩ ⟨1, 5⟩ = true
      ↔ ((5 : Nat) < 5 ∨ ((5 : Nat) = 5 ∧ (1 : Nat) < 2)))
    ∧ cursorPred ⟨2, 5⟩ ⟨(⟨2, 5⟩ : Cursor).id, (⟨2, 5⟩ : Cursor).sortKey⟩ = false
    ∧ List.Pairwise recLT (fetchPage [⟨1, 5⟩, ⟨2, 5⟩] (fun _ => true) none 1).items
    ∧ (∀ x ∈ (fetchPage [⟨1, 5⟩, ⟨2, 5⟩] (fun _ => true) (some ⟨2, 5⟩) 1).items,
        x ∉ (fetchPage [⟨1, 5⟩, ⟨2, 5⟩] (fun _ => true) none 1).items) :=
  cursorPredicate_strict_no_boundary_repeat [⟨1, 5⟩, ⟨2, 5⟩] (fun _ => true) 1 none
    ⟨2, 5⟩ ⟨2, 5⟩ ⟨1, 5⟩ (by decide) (by decide) (by decide)

/-- C7: for every filter and limit in `[1, 100]`, a page fetch against an
empty collection, or one whose filter matches no record, returns
`{ items := [], nextCursor := null }`. -/
theorem fetchPage_empty_result (coll : List Record) (flt : Record → Bool) (cur : Option Cursor)
    (L : Nat) (hL1 : 1 ≤ L) (hL2 : L ≤ 100) (h : ∀ r ∈ coll, flt r = false) :
    (fetchPage coll flt cur L).items = [] ∧ (fetchPage coll flt cur L).nextCursor = none := by
  have hf : coll.filter (matchRow flt cur) = [] := by
    rw [List.filter_eq_nil_iff]
    intro r hr
    simp [matchRow, h r hr]
  have hnil : List.insertionSort recLE (coll.filter (matchRow flt cur)) = ([] : List Record) := by
    rw [hf]
    rfl
  have := fetchPage_last_page coll flt cur L [] hnil (by simp)
  rw [this]
  exact ⟨rfl, rfl⟩

/-- C7 witness: a one-record collection whose filter rejects everything,
fetched with limit 1. -/
theorem fetchPage_empty_result_witness :
    (fetchPage [⟨1, 2⟩] (fun _ => false) none 1).items = []
    ∧ (fetchPage [⟨1, 2⟩] (fun _ => false) none 1).nextCursor = none :=
  fetchPage_empty_result [⟨1, 2⟩] (fun _ => false) none 1 (by decide) (by decide) (by decide)

/-! ## Input validation (`z.number().min(1).max(100)`)

Every list endpoint validates `limit` with the same zod schema,
`z.number().min(1).max(100)`: a numeric bound check with both bounds
inclusive and no integrality constraint. -/

/-- Whether the schema accepts a numeric `limit`. -/
def limitAccepted (limit : ℚ) : Bool :=
  decide (1 ≤ limit) && decide (limit ≤ 100)

/-- Outcome of a list call's input stage: rejected by validation before any
store access, or passed through to the query with the given limit. -/
inductive ListCallOutcome where
  | rejected
  | queried (limit : ℚ)
deriving DecidableEq, Repr

/-- The validation gate every list endpoint runs before its query. -/
def validateLimit (limit : ℚ) : ListCallOutcome :=
  if limitAccepted limit then .queried limit else .rejected

/-! ## Endpoint row types and instantiations -/

/-- A video row as the video listings select it (the columns relevant to
filtering and ordering). -/
structure VideoRow where
  id : Nat
  updatedAt : Nat
  visibility : String
  userId : Nat
  categoryId : Option Nat
deriving DecidableEq, Repr

/-- Cursor of `videos.getMany`, `videos.getManySubscribed` and
`playlists.getVideos`: `{ id, updatedAt }`. -/
structure VideoCursor where
  id : Nat
  updatedAt : Nat
deriving DecidableEq, Repr

/-- `videos.getMany`: optional owner and category filters, visibility
`public`, cursor predicate on `(updatedAt, id)`, ordered by
`desc(updatedAt), desc(id)`. -/
def videosGetMany (rows : List VideoRow) (userId categoryId : Option Nat)
    (cursor : Option VideoCursor) (limit : Nat) : PageResult VideoRow VideoCursor :=
  buildPage (keyDescLE VideoRow.updatedAt VideoRow.id)
    (fun v => (v.visibility == "public")
      && (match userId with
        | some u => v.userId == u
        | none => true)
      && (match categoryId with
        | some cid => v.categoryId == some cid
        | none => true)
      && (match cursor with
        | some c => keyCursorPred VideoRow.updatedAt VideoRow.id c.updatedAt c.id v
        | none => true))
    rows limit (fun v => ⟨v.id, v.updatedAt⟩)

/-- A trending row: a video with its subquery view count. -/
structure TrendingRow where
  id : Nat
  viewCount : Nat
  visibility : String
deriving DecidableEq, Repr

/-- Cursor of `videos.getManyTrending`: `{ id, viewCount }`. -/
structure TrendingCursor where
  id : Nat
  viewCount : Nat
deriving DecidableEq, Repr

/-- `videos.getManyTrending`: visibility `public`, cursor predicate on
`(viewCount, id)`, ordered by `desc(viewCount), desc(id)`. -/
def videosGetManyTrending (rows : List TrendingRow) (cursor : Option TrendingCursor)
    (limit : Nat) : PageResult TrendingRow TrendingCursor :=
  buildPage (keyDescLE TrendingRow.viewCount TrendingRow.id)
    (fun v => (v.visibility == "public")
      && (match cursor with
        | some c => keyCursorPred TrendingRow.viewCount TrendingRow.id c.viewCount c.id v
        | none => true))
    rows limit (fun v => ⟨v.id, v.viewCount⟩)

/-- `videos.getManySubscribed`: rows are the videos of subscribed creators
(the `viewer_subscriptions` join); visibility `public`, cursor predicate on
`(updatedAt, id)`, ordered by `desc(updatedAt), desc(id)`. -/
def videosGetManySubscribed (rows : List VideoRow) (cursor : Option VideoCursor)
    (limit : Nat) : PageResult VideoRow VideoCursor :=
  buildPage (keyDescLE VideoRow.updatedAt VideoRow.id)
    (fun v => (v.visibility == "public")
      && (match cursor with
        | some c => keyCursorPred VideoRow.updatedAt VideoRow.id c.updatedAt c.id v
        | none => true))
    rows limit (fun v => ⟨v.id, v.updatedAt⟩)

/-- A watch-history row: a video joined with the viewer's view row
(`viewedAt` is the view's `updatedAt`). -/
structure HistoryRow where
  id : Nat
  updatedAt : Nat
  viewedAt : Nat
  visibility : String
deriving DecidableEq, Repr

/-- Cursor of `playlists.getHistory`: `{ id, viewedAt }`. -/
structure HistoryCursor where
  id : Nat
  viewedAt : Nat
deriving DecidableEq, Repr

/-- `playlists.getHistory` as the source writes it: the cursor predicate and
the derived next cursor use `viewedAt`, while the ordering is
`desc(videos.updatedAt), desc(videos.id)`. -/
def playlistsGetHistory (rows : List HistoryRow) (cursor : Option HistoryCursor)
    (limit : Nat) : PageResult HistoryRow HistoryCursor :=
  buildPage (keyDescLE HistoryRow.updatedAt HistoryRow.id)
    (fun v => (v.visibility == "public")
      && (match cursor with
        | some c => keyCursorPred HistoryRow.viewedAt HistoryRow.id c.viewedAt c.id v
        | none => true))
    rows limit (fun v => ⟨v.id, v.viewedAt⟩)

/-- A liked-videos row: a video joined with the viewer's like reaction
(`likedAt` is the reaction's `createdAt`). -/
structure LikedRow where
  id : Nat
  likedAt : Nat
  visibility : String
deriving DecidableEq, Repr

/-- Cursor of `playlists.getLiked`: `{ id, likedAt }`. -/
structure LikedCursor where
  id : Nat
  likedAt : Nat
deriving DecidableEq, Repr

/-- `playlists.getLiked`: visibility `public`, cursor predicate on
`(likedAt, id)`, ordered by `desc(likedAt), desc(id)`. -/
def playlistsGetLiked (rows : List LikedRow) (cursor : Option LikedCursor)
    (limit : Nat) : PageResult LikedRow LikedCursor :=
  buildPage (keyDescLE LikedRow.likedAt LikedRow.id)
    (fun v => (v.visibility == "public")
      && (match cursor with
        | some c => keyCursorPred LikedRow.likedAt LikedRow.id c.likedAt c.id v
        | none => true))
    rows limit (fun v => ⟨v.id, v.likedAt⟩)

/-- A playlist row: id and owning user. -/
structure Playlist where
  id : Nat
  userId : Nat
deriving DecidableEq, Repr

/-- The tRPC error codes the embedded procedures throw. -/
inductive TRPCCode where
  | notFound
  | conflict
  | internalServerError
deriving DecidableEq, Repr

/-- The page query of `playlists.getVideos`: rows are the playlist's videos
(the `playlist_videos` CTE join), visibility `public`, cursor predicate on
`(updatedAt, id)`, ordered by `desc(updatedAt), desc(id)`. -/
def playlistVideosPage (rows : List VideoRow) (cursor : Option VideoCursor)
    (limit : Nat) : PageResult VideoRow VideoCursor :=
  buildPage (keyDescLE VideoRow.updatedAt VideoRow.id)
    (fun v => (v.visibility == "public")
      && (match cursor with
        | some c => keyCursorPred VideoRow.updatedAt VideoRow.id c.updatedAt c.id v
        | none => true))
    rows limit (fun v => ⟨v.id, v.updatedAt⟩)

/-- What a call of `playlists.getVideos` produced: the tRPC outcome, and
whether the page read against the video rows was executed. -/
structure GetVideosCall where
  result : Except TRPCCode (PageResult VideoRow VideoCursor)
  pageReadExecuted : Bool

/-- `playlists.getVideos`: first look up the playlist by id and calling
user; throw NOT_FOUND when absent (no page read happens), otherwise run the
page query. -/
def playlistsGetVideos (playlistsTbl : List Playlist) (userId playlistId : Nat)
    (rows : List VideoRow) (cursor : Option VideoCursor) (limit : Nat) : GetVideosCall :=
  match playlistsTbl.find? (fun p => p.id == playlistId && p.userId == userId) with
  | none => ⟨.error .notFound, false⟩
  | some _ => ⟨.ok (playlistVideosPage rows cursor limit), true⟩

/-- A video row of the `videos` table (only the id matters to `addVideo`). -/
structure Video where
  id : Nat
deriving DecidableEq, Repr

/-- A `playlist_videos` row: the membership pair. -/
structure PlaylistVideo where
  playlistId : Nat
  videoId : Nat
deriving DecidableEq, Repr

/-- The store state `playlists.addVideo` reads and writes. -/
structure AddVideoState where
  playlistsTbl : List Playlist
  videosTbl : List Video
  playlistVideosTbl : List PlaylistVideo
deriving DecidableEq, Repr

/-- `playlists.addVideo`: verify the caller owns the playlist and the video
exists (NOT_FOUND otherwise), throw CONFLICT when the pair is already
present, and only then insert the membership row. -/
def addVideo (s : AddVideoState) (userId playlistId videoId : Nat) :
    Except TRPCCode (PlaylistVideo × AddVideoState) :=
  match s.playlistsTbl.find? (fun p => p.id == playlistId && p.userId == userId) with
  | none => .error .notFound
  | some _ =>
    match s.videosTbl.find? (fun v => v.id == videoId) with
    | none => .error .notFound
    | some _ =>
      match s.playlistVideosTbl.find? (fun pv => pv.playlistId == playlistId
          && pv.videoId == videoId) with
      | some _ => .error .conflict
      | none =>
        .ok (⟨playlistId, videoId⟩,
          { s with playlistVideosTbl := s.playlistVideosTbl ++ [⟨playlistId, videoId⟩] })

/-- No two rows of a `playlist_videos` table carry the same pair. -/
def NoDupPairs (tbl : List PlaylistVideo) : Prop :=
  List.Pairwise (fun a b => ¬(a.playlistId = b.playlistId ∧ a.videoId = b.videoId)) tbl

/-- Every page's items are a sublist of the capped read's rows. -/
theorem buildPage_items_sublist {α κ : Type} (le : α → α → Prop) [DecidableRel le]
    (w : α → Bool) (rows : List α) (limit : Nat) (mk : α → κ) :
    (buildPage le w rows limit mk).items.Sublist (pageData le w rows limit) := by
  by_cases h : limit < (pageData le w rows limit).length
  · rw [buildPage_eq_of_gt le w rows limit mk h]
    exact List.dropLast_sublist _
  · push_neg at h
    rw [buildPage_eq_of_le le w rows limit mk h]

/-- Every item a page returns passed the read's `WHERE` clause. -/
theorem buildPage_items_satisfy {α κ : Type} (le : α → α → Prop) [DecidableRel le]
    (w : α → Bool) (rows : List α) (limit : Nat) (mk : α → κ) :
    ∀ r ∈ (buildPage le w rows limit mk).items, w r = true := by
  intro r hr
  have h1 : r ∈ pageData le w rows limit :=
    (buildPage_items_sublist le w rows limit mk).subset hr
  have h2 : r ∈ List.insertionSort le (rows.filter w) := (List.take_sublist _ _).subset h1
  have h3 : r ∈ rows.filter w := (List.perm_insertionSort le _).mem_iff.mp h2
  exact (List.mem_filter.mp h3).2

/-- C2 (code evaluated at the failing input): in `playlists.getHistory` the
ordering key (`videos.updatedAt`) differs from the key the cursor predicate
and the derived cursor use (`viewedAt`).  With two public rows
`(id 1, updatedAt 10, viewedAt 1)` and `(id 2, updatedAt 1, viewedAt 10)`
and limit 1, page one is ordered by `updatedAt` and returns the id-1 row
with cursor `{ id := 1, viewedAt := 1 }`; resuming from that cursor filters
on `viewedAt < 1` and returns an empty page with a null cursor, so the id-2
row — whose `viewedAt` is the most recent — is never enumerated. -/
theorem getHistory_order_key_mismatch :
    (playlistsGetHistory [⟨1, 10, 1, "public"⟩, ⟨2, 1, 10, "public"⟩] none 1).items
        = [⟨1, 10, 1, "public"⟩]
    ∧ (playlistsGetHistory [⟨1, 10, 1, "public"⟩, ⟨2, 1, 10, "public"⟩] none 1).nextCursor
        = some ⟨1, 1⟩
    ∧ (playlistsGetHistory [⟨1, 10, 1, "public"⟩, ⟨2, 1, 10, "public"⟩] (some ⟨1, 1⟩) 1).items
        = []
    ∧ (playlistsGetHistory [⟨1, 10, 1, "public"⟩, ⟨2, 1, 10, "public"⟩]
        (some ⟨1, 1⟩) 1).nextCursor = none := by
  refine ⟨by decide, by decide, by decide, by decide⟩

/-- C5 counterexample: the claim's final clause — "the accepted limit is an
integer in [1, 100]" — is false: validation accepts `limit = 5/2`, which is
no integer. -/
theorem limit_validation_accepts_non_integer :
    validateLimit (5 / 2) = .queried (5 / 2) ∧ ∀ n : ℤ, ((5 : ℚ) / 2) ≠ (n : ℚ) := by
  constructor
  · simp only [validateLimit, limitAccepted]
    norm_num
  · intro n h
    rw [div_eq_iff (by norm_num : (2 : ℚ) ≠ 0)] at h
    have h3 : (5 : ℤ) = n * 2 := by exact_mod_cast h
    omega

/-- C5 (amended): `limit = 0` and `limit = 101` are rejected before the
query runs, `limit = 1` and `limit = 100` pass; the accepted limits are
exactly the numbers in `[1, 100]`, with no integrality requirement. -/
theorem limit_validation_boundary :
    validateLimit 0 = .rejected
    ∧ validateLimit 101 = .rejected
    ∧ validateLimit 1 = .queried 1
    ∧ validateLimit 100 = .queried 100
    ∧ ∀ q : ℚ, validateLimit q = .queried q ↔ (1 ≤ q ∧ q ≤ 100) := by
  refine ⟨?_, ?_, ?_, ?_, ?_⟩
  · simp only [validateLimit, limitAccepted]
    norm_num
  · simp only [validateLimit, limitAccepted]
    norm_num
  · simp only [validateLimit, limitAccepted]
    norm_num
  · simp only [validateLimit, limitAccepted]
    norm_num
  · intro q
    simp only [validateLimit, limitAccepted, Bool.and_eq_true, decide_eq_true_eq]
    split
    · simp_all
    · simp_all

/-- C9: input validation does not require an integral limit: `limit = 5/2`
lies strictly between 1 and 100, is no integer, and passes validation, so
the call proceeds to the query with that fractional limit. -/
theorem limit_validation_fractional_passes :
    validateLimit (5 / 2) = .queried (5 / 2)
    ∧ ((1 : ℚ) < 5 / 2 ∧ (5 : ℚ) / 2 < 100)
    ∧ (∀ n : ℤ, ((5 : ℚ) / 2) ≠ (n : ℤ)) := by
  refine ⟨?_, by norm_num, ?_⟩
  · simp only [validateLimit, limitAccepted]
    norm_num
  · intro n h
    rw [div_eq_iff (by norm_num : (2 : ℚ) ≠ 0)] at h
    have h3 : (5 : ℤ) = n * 2 := by exact_mod_cast h
    omega

/-- C6: `playlists.getVideos` fails with NOT_FOUND exactly when no playlist
with the supplied id owned by the calling user exists; in that case the page
read never executes, and otherwise the call returns the page of the
playlist's videos. -/
theorem getVideos_not_found_guard (playlistsTbl : List Playlist) (userId playlistId : Nat)
    (rows : List VideoRow) (cursor : Option VideoCursor) (limit : Nat) :
    ((playlistsGetVideos playlistsTbl userId playlistId rows cursor limit).result
        = Except.error TRPCCode.notFound
      ↔ ¬ ∃ p ∈ playlistsTbl, p.id = playlistId ∧ p.userId = userId)
    ∧ ((¬ ∃ p ∈ playlistsTbl, p.id = playlistId ∧ p.userId = userId) →
        (playlistsGetVideos playlistsTbl userId playlistId rows cursor limit).pageReadExecuted
          = false)
    ∧ ((∃ p ∈ playlistsTbl, p.id = playlistId ∧ p.userId = userId) →
        playlistsGetVideos playlistsTbl userId playlistId rows cursor limit
          = ⟨Except.ok (playlistVideosPage rows cursor limit), true⟩) := by
  have hiff : (playlistsTbl.find? (fun p => p.id == playlistId && p.userId == userId)
      = none) ↔ ¬ ∃ p ∈ playlistsTbl, p.id = playlistId ∧ p.userId = userId := by
    rw [List.find?_eq_none]
    simp
  cases hfind : playlistsTbl.find? (fun p => p.id == playlistId && p.userId == userId) with
  | none =>
    have hno : ¬ ∃ p ∈ playlistsTbl, p.id = playlistId ∧ p.userId = userId :=
      hiff.mp hfind
    refine ⟨?_, ?_, ?_⟩
    · simp [playlistsGetVideos, hfind, hno]
    · intro _
      simp [playlistsGetVideos, hfind]
    · intro hex
      exact absurd hex hno
  | some p =>
    have hyes : ∃ p ∈ playlistsTbl, p.id = playlistId ∧ p.userId = userId := by
      by_contra hno
      rw [← hiff] at hno
      rw [hfind] at hno
      exact Option.some_ne_none p hno
    refine ⟨?_, ?_, ?_⟩
    · simp only [playlistsGetVideos, hfind]
      constructor
      · intro h
        exact absurd h (by simp)
      · intro h
        exact absurd hyes h
    · intro hno
      exact absurd hyes hno
    · intro _
      simp [playlistsGetVideos, hfind]

/-- C8: every row returned by any video-listing endpoint — the general
listing, trending, the subscribed feed, watch history, liked videos and
playlist contents — has visibility `public`; a private video appears in no
page, the calling user's own history and liked listings included. -/
theorem listings_return_only_public_videos :
    (∀ (rows : List VideoRow) (userId categoryId : Option Nat)
        (cursor : Option VideoCursor) (limit : Nat) (r : VideoRow),
        r ∈ (videosGetMany rows userId categoryId cursor limit).items →
          r.visibility = "public")
    ∧ (∀ (rows : List TrendingRow) (cursor : Option TrendingCursor) (limit : Nat)
        (r : TrendingRow),
        r ∈ (videosGetManyTrending rows cursor limit).items → r.visibility = "public")
    ∧ (∀ (rows : List VideoRow) (cursor : Option VideoCursor) (limit : Nat) (r : VideoRow),
        r ∈ (videosGetManySubscribed rows cursor limit).items → r.visibility = "public")
    ∧ (∀ (rows : List HistoryRow) (cursor : Option HistoryCursor) (limit : Nat)
        (r : HistoryRow),
        r ∈ (playlistsGetHistory rows cursor limit).items → r.visibility = "public")
    ∧ (∀ (rows : List LikedRow) (cursor : Option LikedCursor) (limit : Nat) (r : LikedRow),
        r ∈ (playlistsGetLiked rows cursor limit).items → r.visibility = "public")
    ∧ (∀ (playlistsTbl : List Playlist) (userId playlistId : Nat) (rows : List VideoRow)
        (cursor : Option VideoCursor) (limit : Nat)
        (pg : PageResult VideoRow VideoCursor) (r : VideoRow),
        (playlistsGetVideos playlistsTbl userId playlistId rows cursor limit).result
            = Except.ok pg →
        r ∈ pg.items → r.visibility = "public") := by
  refine ⟨?_, ?_, ?_, ?_, ?_, ?_⟩
  · intro rows userId categoryId cursor limit r hr
    have hw := buildPage_items_satisfy _ _ rows limit _ r hr
    simp only [Bool.and_eq_true, beq_iff_eq] at hw
    exact hw.1.1.1
  · intro rows cursor limit r hr
    have hw := buildPage_items_satisfy _ _ rows limit _ r hr
    simp only [Bool.and_eq_true, beq_iff_eq] at hw
    exact hw.1
  · intro rows cursor limit r hr
    have hw := buildPage_items_satisfy _ _ rows limit _ r hr
    simp only [Bool.and_eq_true, beq_iff_eq] at hw
    exact hw.1
  · intro rows cursor limit r hr
    have hw := buildPage_items_satisfy _ _ rows limit _ r hr
    simp only [Bool.and_eq_true, beq_iff_eq] at hw
    exact hw.1
  · intro rows cursor limit r hr
    have hw := buildPage_items_satisfy _ _ rows limit _ r hr
    simp only [Bool.and_eq_true, beq_iff_eq] at hw
    exact hw.1
  · intro playlistsTbl userId playlistId rows cursor limit pg r hok hr
    unfold playlistsGetVideos at hok
    cases hfind : playlistsTbl.find? (fun p => p.id == playlistId && p.userId == userId) with
    | none =>
      rw [hfind] at hok
      exact absurd hok (by simp)
    | some p =>
      rw [hfind] at hok
      have hpg : playlistVideosPage rows cursor limit = pg := by
        injection hok
      subst hpg
      have hw := buildPage_items_satisfy _ _ rows limit _ r hr
      simp only [Bool.and_eq_true, beq_iff_eq] at hw
      exact hw.1

/-- C10: when the `(playlistId, videoId)` pair is already in the playlist,
`playlists.addVideo` never succeeds, and — with the owned playlist and the
video present — fails with CONFLICT; any successful call starts from a table
without the pair, so a table with no duplicate pairs keeps that invariant:
the operation never puts the same video into a playlist twice. -/
theorem addVideo_conflict_no_duplicate (s : AddVideoState) (userId playlistId videoId : Nat)
    (h1 : ∃ p ∈ s.playlistsTbl, p.id = playlistId ∧ p.userId = userId)
    (h2 : ∃ v ∈ s.videosTbl, v.id = videoId)
    (h3 : ∃ pv ∈ s.playlistVideosTbl, pv.playlistId = playlistId ∧ pv.videoId = videoId) :
    addVideo s userId playlistId videoId = Except.error TRPCCode.conflict
    ∧ ∀ (s2 : AddVideoState) (u2 p2 v2 : Nat) (out : PlaylistVideo × AddVideoState),
        NoDupPairs s2.playlistVideosTbl →
        addVideo s2 u2 p2 v2 = Except.ok out →
        NoDupPairs out.2.playlistVideosTbl := by
  constructor
  · obtain ⟨p, hp, hp1, hp2⟩ := h1
    obtain ⟨v, hv, hv1⟩ := h2
    obtain ⟨pv, hpv, hpv1, hpv2⟩ := h3
    have hf1 : (s.playlistsTbl.find? (fun p => p.id == playlistId && p.userId == userId)).isSome :=
      List.find?_isSome.mpr ⟨p, hp, by simp [hp1, hp2]⟩
    have hf2 : (s.videosTbl.find? (fun v => v.id == videoId)).isSome :=
      List.find?_isSome.mpr ⟨v, hv, by simp [hv1]⟩
    have hf3 : (s.playlistVideosTbl.find? (fun pv => pv.playlistId == playlistId
        && pv.videoId == videoId)).isSome :=
      List.find?_isSome.mpr ⟨pv, hpv, by simp [hpv1, hpv2]⟩
    unfold addVideo
    cases hc1 : s.playlistsTbl.find? (fun p => p.id == playlistId && p.userId == userId) with
    | none => rw [hc1] at hf1; simp at hf1
    | some q1 =>
      cases hc2 : s.videosTbl.find? (fun v => v.id == videoId) with
      | none => rw [hc2] at hf2; simp at hf2
      | some q2 =>
        cases hc3 : s.playlistVideosTbl.find? (fun pv => pv.playlistId == playlistId
            && pv.videoId == videoId) with
        | none => rw [hc3] at hf3; simp at hf3
        | some q3 => rfl
  · intro s2 u2 p2 v2 out hnd hok
    unfold addVideo at hok
    cases hc1 : s2.playlistsTbl.find? (fun p => p.id == p2 && p.userId == u2) with
    | none => rw [hc1] at hok; exact absurd hok (by simp)
    | some q1 =>
      rw [hc1] at hok
      cases hc2 : s2.videosTbl.find? (fun v => v.id == v2) with
      | none => rw [hc2] at hok; exact absurd hok (by simp)
      | some q2 =>
        rw [hc2] at hok
        cases hc3 : s2.playlistVideosTbl.find? (fun pv => pv.playlistId == p2
            && pv.videoId == v2) with
        | some q3 => rw [hc3] at hok; exact absurd hok (by simp)
        | none =>
          rw [hc3] at hok
          have hout : out = (⟨p2, v2⟩,
              { s2 with playlistVideosTbl := s2.playlistVideosTbl ++ [⟨p2, v2⟩] }) := by
            injection hok with h
            exact h.symm
          subst hout
          have habs : ∀ pv ∈ s2.playlistVideosTbl,
              ¬(pv.playlistId = p2 ∧ pv.videoId = v2) := by
            intro pv hpv

            have := List.find?_eq_none.mp hc3 pv hpv
            simpa using this
          show NoDupPairs (s2.playlistVideosTbl ++ [⟨p2, v2⟩])
          unfold NoDupPairs
          rw [List.pairwise_append]
          refine ⟨hnd, List.pairwise_singleton _ _, ?_⟩
          intro a ha b hb
          have hb2 : b = ⟨p2, v2⟩ := by simpa using hb
          subst hb2
          exact habs a ha

/-- C10 witness: user 7 owns playlist 1, video 2 exists and is already in
playlist 1, so adding it again is a CONFLICT; and the no-duplicate-pair
invariant is preserved by every successful insert. -/
theorem addVideo_conflict_no_duplicate_witness :
    addVideo ⟨[⟨1, 7⟩], [⟨2⟩], [⟨1, 2⟩]⟩ 7 1 2 = Except.error TRPCCode.conflict
    ∧ ∀ (s2 : AddVideoState) (u2 p2 v2 : Nat) (out : PlaylistVideo × AddVideoState),
        NoDupPairs s2.playlistVideosTbl →
        addVideo s2 u2 p2 v2 = Except.ok out →
        NoDupPairs out.2.playlistVideosTbl :=
  addVideo_conflict_no_duplicate ⟨[⟨1, 7⟩], [⟨2⟩], [⟨1, 2⟩]⟩ 7 1 2
    (by decide) (by decide) (by decide)

end KeysetPagination
